import Mathlib

/-!
Shallow embedding of the rate-limited GitHub access layer of
`java-migration-backend/services/rate_limiter.py` and the response cache of
`services/github_service.py`, together with theorems settling the spec claims.

Python dictionaries keyed by strings are modelled as association lists with
`dictGet` / `dictInsert` / `dictErase`; `time.time()` instants and float
delays are modelled as rationals; header values are modelled as absent,
parseable-to-an-integer, or garbage (raising `ValueError` on `int(...)`).
-/

/-- Association-list read, modelling `d[k]` / `k in d` on a Python dict. -/
def dictGet {α : Type} (l : List (String × α)) (k : String) : Option α :=
  match l with
  | [] => none
  | (k', v) :: rest => if k' = k then some v else dictGet rest k

/-- Remove a key, modelling `del d[k]`. -/
def dictErase {α : Type} (l : List (String × α)) (k : String) : List (String × α) :=
  l.filter (fun p => p.1 != k)

/-- Store/overwrite a key, modelling `d[k] = v`. -/
def dictInsert {α : Type} (l : List (String × α)) (k : String) (v : α) : List (String × α) :=
  (k, v) :: dictErase l k

/-- One `self.limits[endpoint]` record: limit / remaining / reset / endpoint.
`reset` is `None` initially and an integer (possibly `0`) after an update. -/
structure QuotaRecord where
  limit : Int
  remaining : Int
  reset : Option Int
  endpoint : String
deriving DecidableEq, Repr

/-- State of `RateLimitTracker`: the `limits` dict plus the `authenticated` flag. -/
structure RateLimitTracker where
  limits : List (String × QuotaRecord)
  authenticated : Bool
deriving DecidableEq, Repr

/-- `RateLimitTracker.__init__`: core 60/60, search 10/10, graphql 0/0, resets `None`. -/
def RateLimitTracker.init : RateLimitTracker :=
  { limits := [("core", ⟨60, 60, none, "core"⟩),
               ("search", ⟨10, 10, none, "search"⟩),
               ("graphql", ⟨0, 0, none, "graphql"⟩)],
    authenticated := false }

/-- A response header value: `parses n` is a string `int(...)` accepts,
`garbage` is a present string that makes `int(...)` raise. -/
inductive HeaderVal where
  | parses (n : Int)
  | garbage
deriving DecidableEq, Repr

/-- The three `X-RateLimit-*` headers of a response; `none` means absent. -/
structure RespHeaders where
  limit : Option HeaderVal
  remaining : Option HeaderVal
  reset : Option HeaderVal
deriving DecidableEq, Repr

/-- `int(headers.get(name, default))`.  Python evaluates the default
expression eagerly, so a `KeyError` while computing it (modelled by
`default = none`) aborts even when the header is present; a present but
unparseable header makes `int` raise.  `none` models the raised exception. -/
def getHeaderInt (h : Option HeaderVal) (default : Option Int) : Option Int :=
  match default with
  | none => none
  | some d =>
    match h with
    | none => some d
    | some (HeaderVal.parses n) => some n
    | some HeaderVal.garbage => none

/-- `RateLimitTracker.update_from_response(headers, endpoint)`: parse the three
headers (defaults read eagerly from `self.limits[endpoint]`), overwrite the
record, set `authenticated` when core limit ≥ 5000; any exception is caught
and the method returns `False` leaving the state untouched. -/
def RateLimitTracker.update_from_response (st : RateLimitTracker)
    (headers : RespHeaders) (endpoint : String) : RateLimitTracker × Bool :=
  let old := dictGet st.limits endpoint
  match getHeaderInt headers.limit (old.map (fun r => r.limit)),
        getHeaderInt headers.remaining (old.map (fun r => r.remaining)),
        getHeaderInt headers.reset (some 0) with
  | some limit, some remaining, some reset =>
    let st1 : RateLimitTracker :=
      { st with limits := dictInsert st.limits endpoint ⟨limit, remaining, some reset, endpoint⟩ }
    let st2 : RateLimitTracker :=
      if endpoint = "core" ∧ 5000 ≤ limit then { st1 with authenticated := true } else st1
    (st2, true)
  | _, _, _ => (st, false)

/-- `RateLimitTracker.get_status(endpoint)`: unknown endpoints fall back to
`'core'`; `none` models the `KeyError` when even `'core'` is missing. -/
def RateLimitTracker.get_status (st : RateLimitTracker) (endpoint : String) :
    Option QuotaRecord :=
  match dictGet st.limits endpoint with
  | some r => some r
  | none => dictGet st.limits "core"

/-- `RateLimitTracker.get_wait_time(endpoint)` at instant `now`.
`self.limits.get(endpoint, self.limits['core'])` evaluates its default
eagerly, so a missing `'core'` record raises (modelled as `none`); then:
0 if remaining > 0, else `max(0, reset - now)` when `reset` is truthy
(non-`None` and nonzero), else the one-hour fallback 3600. -/
def RateLimitTracker.get_wait_time (st : RateLimitTracker) (now : ℚ)
    (endpoint : String) : Option ℚ :=
  match dictGet st.limits "core" with
  | none => none
  | some core =>
    let status := (dictGet st.limits endpoint).getD core
    if 0 < status.remaining then some 0
    else
      match status.reset with
      | some r => if r ≠ 0 then some (max 0 ((r : ℚ) - now)) else some 3600
      | none => some 3600

/-- `RateLimitTracker.is_rate_limited(endpoint)`: `remaining <= 0` of the
record (falling back to `'core'`, whose absence raises). -/
def RateLimitTracker.is_rate_limited (st : RateLimitTracker) (endpoint : String) :
    Option Bool :=
  match dictGet st.limits "core" with
  | none => none
  | some core =>
    let status := (dictGet st.limits endpoint).getD core
    some (decide (status.remaining ≤ 0))

/-- `ExponentialBackoffRetry` configuration (defaults 5 / 1.0 / 300.0). -/
structure ExponentialBackoffRetry where
  max_retries : Nat
  initial_delay : ℚ
  max_delay : ℚ
deriving DecidableEq, Repr

/-- `ExponentialBackoffRetry.get_delay(attempt, jitter)` with the uniform
draw `u ∈ [0,1)` made explicit: `initial_delay * 2**attempt`, capped at
`max_delay`, plus `delay * 0.2 * u` of jitter. -/
def ExponentialBackoffRetry.get_delay (p : ExponentialBackoffRetry)
    (attempt : Nat) (jitter : Bool) (u : ℚ) : ℚ :=
  let delay := p.initial_delay * 2 ^ attempt
  let delay := min delay p.max_delay
  if jitter then delay + delay * (0.2 : ℚ) * u else delay

/-- `_cache_ttl = 300` of `github_service.py`. -/
def cache_ttl : ℚ := 300

/-- `set_cached(key, value)`: store `(value, time.time())`. -/
def set_cached {α : Type} (cache : List (String × α × ℚ)) (now : ℚ)
    (key : String) (value : α) : List (String × α × ℚ) :=
  dictInsert cache key (value, now)

/-- `get_cached(key)` at instant `now`: hit while `now - timestamp <
_cache_ttl`, otherwise delete the entry (lazy eviction) and miss.  Returns
the read result and the cache afterwards. -/
def get_cached {α : Type} (cache : List (String × α × ℚ)) (now : ℚ)
    (key : String) : Option α × List (String × α × ℚ) :=
  match dictGet cache key with
  | some (value, timestamp) =>
    if now - timestamp < cache_ttl then (some value, cache)
    else (none, dictErase cache key)
  | none => (none, cache)

/-- Does the character list start with `pat`? -/
def charsStartWith : List Char → List Char → Bool
  | [], _ => true
  | _ :: _, [] => false
  | a :: as, b :: bs => (a == b) && charsStartWith as bs

/-- Does the character list contain `pat` as a contiguous run? -/
def charsContain (pat : List Char) : List Char → Bool
  | [] => charsStartWith pat []
  | c :: rest => charsStartWith pat (c :: rest) || charsContain pat rest

/-- Python `needle in haystack` on strings. -/
def strContains (haystack needle : String) : Bool :=
  charsContain needle.data haystack.data

/-- ASCII lowercase of one character (`str.lower()` restricted to ASCII,
which covers the heuristics' patterns). -/
def charLower (ch : Char) : Char :=
  if 'A' ≤ ch ∧ ch ≤ 'Z' then Char.ofNat (ch.toNat + 32) else ch

/-- Python `str.lower()` on an (ASCII) error message. -/
def strLower (s : String) : String :=
  String.mk (s.data.map charLower)

/-- The failure-classification heuristic of `with_rate_limit_handling`:
`error_str = str(e).lower()` contains `'rate limit'`, `'403'` or `'abuse'`. -/
def is_rate_limit_error (e : String) : Bool :=
  let s := strLower e
  strContains s "rate limit" || strContains s "403" || strContains s "abuse"

/-- One resolution event on the `asyncio.Future` of a queued operation:
`future.set_result` or `future.set_exception`. -/
inductive FutureRes (α : Type) where
  | value (v : α)
  | error (e : String)
deriving DecidableEq, Repr

/-- Observable state of `process_queue` while handling one dequeued
operation: the clock (advanced by every sleep), the list of resolution calls
made on the operation's future, the number of invocations of the bound
action, the backoff delays slept, and `last_error`. -/
structure QState (α : Type) where
  t : ℚ
  resolutions : List (FutureRes α)
  invocations : Nat
  backoffDelays : List ℚ
  lastError : Option String
deriving DecidableEq, Repr

/-- The `for attempt in range(max_retries)` loop of
`RequestQueue.process_queue`, one dequeued operation.  `k` counts the
iterations left, so the current attempt is `maxRetries - k`; `outcomes n`
is what `func(*args, **kwargs)` does on attempt `n` and `draws n` the
jitter drawn for the backoff after attempt `n`.  `none` models the
`KeyError` escaping `get_wait_time` when the `'core'` record is missing. -/
def queueLoop {α : Type} (st : RateLimitTracker) (endpoint : String)
    (retry : ExponentialBackoffRetry) (maxRetries : Nat)
    (outcomes : Nat → Except String α) (draws : Nat → ℚ) :
    Nat → QState α → Option (QState α)
  | 0, s => some s
  | k + 1, s =>
    let attempt := maxRetries - (k + 1)
    match st.get_wait_time s.t endpoint with
    | none => none
    | some w =>
      let t1 := if 0 < w then s.t + w else s.t
      match outcomes attempt with
      | Except.ok v =>
        some { s with t := t1, invocations := s.invocations + 1,
                      resolutions := s.resolutions ++ [FutureRes.value v] }
      | Except.error e =>
        let s1 : QState α := { s with t := t1, invocations := s.invocations + 1,
                                      lastError := some e }
        if attempt < maxRetries - 1 then
          let d := retry.get_delay attempt true (draws attempt)
          queueLoop st endpoint retry maxRetries outcomes draws k
            { s1 with t := s1.t + d, backoffDelays := s1.backoffDelays ++ [d] }
        else
          queueLoop st endpoint retry maxRetries outcomes draws k
            { s1 with resolutions := s1.resolutions ++ [FutureRes.error e] }

/-- `RequestQueue.process_queue` handling one dequeued operation: build the
`ExponentialBackoffRetry(max_retries=max_retries)` (defaults 1.0 / 300.0),
run the attempt loop, then the trailing
`if not future.done() and last_error: future.set_exception(last_error)`.
Returns the rate limiter state afterwards (the loop never writes it)
together with the observable run. -/
def process_queue_one {α : Type} (st : RateLimitTracker) (t0 : ℚ)
    (endpoint : String) (maxRetries : Nat) (outcomes : Nat → Except String α)
    (draws : Nat → ℚ) : Option (RateLimitTracker × QState α) :=
  let retry : ExponentialBackoffRetry := ⟨maxRetries, 1, 300⟩
  match queueLoop st endpoint retry maxRetries outcomes draws maxRetries
      ⟨t0, [], 0, [], none⟩ with
  | none => none
  | some s =>
    match s.resolutions, s.lastError with
    | [], some e => some (st, { s with resolutions := [FutureRes.error e] })
    | _, _ => some (st, s)

deriving instance DecidableEq for Except

/-- Observable state of the synchronous wrapper: clock, final outcome
(`some (ok v)` = returned `v`, `some (error e)` = raised `e`, `none` =
fell off the loop returning `None`), invocation count, backoff delays
slept, and `last_error`. -/
structure SState (α : Type) where
  t : ℚ
  outcome : Option (Except String α)
  invocations : Nat
  backoffDelays : List ℚ
  lastError : Option String
deriving DecidableEq, Repr

/-- The `for attempt in range(max_retries)` loop of the wrapper produced by
`with_rate_limit_handling`: wait out the quota, invoke, return on success;
on an exception classified rate-limit with attempts left, sleep the backoff
delay and retry; on a non-rate-limit exception re-raise at once; on a
rate-limit exception with no attempts left fall through, and after the loop
`raise last_error`. -/
def syncLoop {α : Type} (st : RateLimitTracker) (endpoint : String)
    (retry : ExponentialBackoffRetry) (maxRetries : Nat)
    (outcomes : Nat → Except String α) (draws : Nat → ℚ) :
    Nat → SState α → Option (SState α)
  | 0, s =>
    match s.lastError with
    | some e => some { s with outcome := some (Except.error e) }
    | none => some s
  | k + 1, s =>
    let attempt := maxRetries - (k + 1)
    match st.get_wait_time s.t endpoint with
    | none => none
    | some w =>
      let t1 := if 0 < w then s.t + w else s.t
      match outcomes attempt with
      | Except.ok v =>
        some { s with t := t1, invocations := s.invocations + 1,
                      outcome := some (Except.ok v) }
      | Except.error e =>
        let s1 : SState α := { s with t := t1, invocations := s.invocations + 1,
                                      lastError := some e }
        if is_rate_limit_error e = true ∧ attempt < maxRetries - 1 then
          let d := retry.get_delay attempt true (draws attempt)
          syncLoop st endpoint retry maxRetries outcomes draws k
            { s1 with t := s1.t + d, backoffDelays := s1.backoffDelays ++ [d] }
        else
          if is_rate_limit_error e = false then
            some { s1 with outcome := some (Except.error e) }
          else
            syncLoop st endpoint retry maxRetries outcomes draws k s1

/-- `with_rate_limit_handling(rate_limiter, endpoint, max_retries)` applied
to one call: the wrapper runs the attempt loop with its own
`ExponentialBackoffRetry(max_retries=max_retries)` (defaults 1.0 / 300.0). -/
def with_rate_limit_handling {α : Type} (st : RateLimitTracker) (t0 : ℚ)
    (endpoint : String) (maxRetries : Nat) (outcomes : Nat → Except String α)
    (draws : Nat → ℚ) : Option (SState α) :=
  let retry : ExponentialBackoffRetry := ⟨maxRetries, 1, 300⟩
  syncLoop st endpoint retry maxRetries outcomes draws maxRetries
    ⟨t0, none, 0, [], none⟩

/-- A sequence of `update_from_response` calls, threading the state. -/
def updateMany (st : RateLimitTracker) (calls : List (RespHeaders × String)) :
    RateLimitTracker :=
  calls.foldl (fun s c => (s.update_from_response c.1 c.2).1) st

/-! ### Dictionary lemmas -/

lemma dictGet_dictInsert_self {α : Type} (l : List (String × α)) (k : String) (v : α) :
    dictGet (dictInsert l k v) k = some v := by
  simp [dictInsert, dictGet]

lemma dictGet_dictErase_self {α : Type} (l : List (String × α)) (k : String) :
    dictGet (dictErase l k) k = none := by
  induction l with
  | nil => rfl
  | cons p rest ih =>
    obtain ⟨k', v⟩ := p
    by_cases h : k' = k
    · simpa [dictErase, List.filter_cons, h] using ih
    · simpa [dictErase, List.filter_cons, h, dictGet] using ih

/-- With the `'core'` record present, `get_wait_time` never raises. -/
lemma get_wait_time_some (st : RateLimitTracker) (now : ℚ) (ep : String)
    (c : QuotaRecord) (hcore : dictGet st.limits "core" = some c) :
    ∃ w, st.get_wait_time now ep = some w := by
  unfold RateLimitTracker.get_wait_time
  rw [hcore]
  dsimp only
  split
  · exact ⟨_, rfl⟩
  · split
    · split
      · exact ⟨_, rfl⟩
      · exact ⟨_, rfl⟩
    · exact ⟨_, rfl⟩

/-! ### C3 / C10: tracker read operations -/

/-- C3: for a tracked resource class, `get_wait_time` returns 0 when
`remaining > 0`; otherwise `max(0, resetAt - now)` when the reset instant is
known (truthy) and the one-hour fallback 3600 when it is unknown;
`is_rate_limited` answers `remaining ≤ 0`; hence `remaining > 0` forces a zero
wait, and a positive wait forces `is_rate_limited = true`. -/
theorem C3_wait_time_spec (st : RateLimitTracker) (now : ℚ) (ep : String)
    (r c : QuotaRecord) (hep : dictGet st.limits ep = some r)
    (hcore : dictGet st.limits "core" = some c) :
    (0 < r.remaining → st.get_wait_time now ep = some 0) ∧
    (r.remaining ≤ 0 → ∀ t : Int, r.reset = some t → t ≠ 0 →
      st.get_wait_time now ep = some (max 0 ((t : ℚ) - now))) ∧
    (r.remaining ≤ 0 → (r.reset = none ∨ r.reset = some 0) →
      st.get_wait_time now ep = some 3600) ∧
    st.is_rate_limited ep = some (decide (r.remaining ≤ 0)) ∧
    (∀ w : ℚ, st.get_wait_time now ep = some w → 0 < w →
      st.is_rate_limited ep = some true) := by
  unfold RateLimitTracker.get_wait_time RateLimitTracker.is_rate_limited
  rw [hcore, hep]
  dsimp only [Option.getD]
  refine ⟨?_, ?_, ?_, ?_, ?_⟩
  · intro hpos
    rw [if_pos hpos]
  · intro hle t ht htne
    rw [if_neg (by omega), ht]
    dsimp only
    rw [if_pos htne]
  · intro hle hres
    rw [if_neg (by omega)]
    rcases hres with h | h <;> rw [h]
    dsimp only
    rw [if_neg (by simp)]
  · rfl
  · intro w hw hwpos
    by_cases hpos : 0 < r.remaining
    · rw [if_pos hpos] at hw
      cases hw
      exact absurd hwpos (by norm_num)
    · congr 1
      simp [decide_eq_true_eq]
      omega

/-- Witness for C3 at the freshly initialised tracker and the `'search'`
class: remaining is 10 > 0, so the wait time is 0. -/
theorem C3_wait_time_spec_witness :
    RateLimitTracker.init.get_wait_time 0 "search" = some 0 :=
  (C3_wait_time_spec RateLimitTracker.init 0 "search"
      ⟨10, 10, none, "search"⟩ ⟨60, 60, none, "core"⟩ (by decide) (by decide)).1
    (by decide)

/-- C10: for an endpoint name the tracker does not know, the three read
operations silently answer from the `'core'` record. -/
theorem C10_unknown_endpoint_reads (st : RateLimitTracker) (now : ℚ)
    (ep : String) (c : QuotaRecord) (hep : dictGet st.limits ep = none)
    (hcore : dictGet st.limits "core" = some c) :
    st.get_status ep = some c ∧
    st.get_wait_time now ep = st.get_wait_time now "core" ∧
    st.is_rate_limited ep = st.is_rate_limited "core" := by
  unfold RateLimitTracker.get_status RateLimitTracker.get_wait_time
    RateLimitTracker.is_rate_limited
  rw [hep, hcore]
  simp [Option.getD]

/-- Witness for C10 at the freshly initialised tracker and the unknown
endpoint name `'bogus'`. -/
theorem C10_unknown_endpoint_reads_witness :
    RateLimitTracker.init.get_status "bogus" = some ⟨60, 60, none, "core"⟩ :=
  (C10_unknown_endpoint_reads RateLimitTracker.init 0 "bogus"
      ⟨60, 60, none, "core"⟩ (by decide) (by decide)).1

/-! ### C9 / C6: update_from_response -/

lemma getHeaderInt_garbage (d : Option Int) :
    getHeaderInt (some HeaderVal.garbage) d = none := by
  cases d <;> rfl

/-- C9: `update_from_response` is atomic on failure — a `False` return leaves
the tracker untouched; any unparseable header forces that failure; and for an
endpoint absent from the `limits` dict the eagerly evaluated header defaults
raise before any write, so the call always fails and can never create a new
record. -/
theorem C9_update_atomic (st : RateLimitTracker) (h : RespHeaders) (ep : String) :
    ((st.update_from_response h ep).2 = false → (st.update_from_response h ep).1 = st) ∧
    ((h.limit = some HeaderVal.garbage ∨ h.remaining = some HeaderVal.garbage ∨
        h.reset = some HeaderVal.garbage) →
      st.update_from_response h ep = (st, false)) ∧
    (dictGet st.limits ep = none → st.update_from_response h ep = (st, false)) := by
  refine ⟨?_, ?_, ?_⟩
  · rcases hl : getHeaderInt h.limit ((dictGet st.limits ep).map (fun r => r.limit)) with _ | L <;>
      rcases hm : getHeaderInt h.remaining ((dictGet st.limits ep).map (fun r => r.remaining)) with _ | R <;>
      rcases hs : getHeaderInt h.reset (some 0) with _ | S <;>
      simp [RateLimitTracker.update_from_response, hl, hm, hs]
  · rintro (hg | hg | hg) <;>
      rcases hl : getHeaderInt h.limit ((dictGet st.limits ep).map (fun r => r.limit)) with _ | L <;>
      rcases hm : getHeaderInt h.remaining ((dictGet st.limits ep).map (fun r => r.remaining)) with _ | R <;>
      rcases hs : getHeaderInt h.reset (some 0) with _ | S <;>
      simp_all [RateLimitTracker.update_from_response, getHeaderInt_garbage]
  · intro hep
    simp [RateLimitTracker.update_from_response, hep, getHeaderInt]

/-- Witness for C9: a garbage `X-RateLimit-Limit` header makes the update
fail and leaves the fresh tracker unchanged. -/
theorem C9_update_atomic_witness :
    RateLimitTracker.init.update_from_response
      ⟨some HeaderVal.garbage, none, none⟩ "core" = (RateLimitTracker.init, false) :=
  (C9_update_atomic RateLimitTracker.init
      ⟨some HeaderVal.garbage, none, none⟩ "core").2.1 (Or.inl rfl)

/-- A single `update_from_response` never clears the `authenticated` flag. -/
lemma update_auth_mono (st : RateLimitTracker) (h : RespHeaders) (ep : String)
    (hauth : st.authenticated = true) :
    (st.update_from_response h ep).1.authenticated = true := by
  rcases hl : getHeaderInt h.limit ((dictGet st.limits ep).map (fun r => r.limit)) with _ | L <;>
    rcases hm : getHeaderInt h.remaining ((dictGet st.limits ep).map (fun r => r.remaining)) with _ | R <;>
    rcases hs : getHeaderInt h.reset (some 0) with _ | S <;>
    simp [RateLimitTracker.update_from_response, hl, hm, hs, hauth]


lemma updateMany_auth_mono (calls : List (RespHeaders × String))
    (st : RateLimitTracker) (hauth : st.authenticated = true) :
    (updateMany st calls).authenticated = true := by
  induction calls generalizing st with
  | nil => exact hauth
  | cons c rest ih => exact ih _ (update_auth_mono st c.1 c.2 hauth)

/-- C6: a successful `'core'` update whose stored limit is ≥ 5000 sets
`authenticated`, and the flag survives every later sequence of updates (any
endpoint, any limits): no tracker operation resets it. -/
theorem C6_authenticated_monotone (st : RateLimitTracker) (h : RespHeaders)
    (r : QuotaRecord) (calls : List (RespHeaders × String))
    (hok : (st.update_from_response h "core").2 = true)
    (hr : dictGet (st.update_from_response h "core").1.limits "core" = some r)
    (hlim : 5000 ≤ r.limit) :
    (st.update_from_response h "core").1.authenticated = true ∧
    (updateMany (st.update_from_response h "core").1 calls).authenticated = true := by
  have hauth : (st.update_from_response h "core").1.authenticated = true := by
    rcases hl : getHeaderInt h.limit ((dictGet st.limits "core").map (fun q => q.limit)) with _ | L <;>
      rcases hm : getHeaderInt h.remaining ((dictGet st.limits "core").map (fun q => q.remaining)) with _ | R <;>
      rcases hs : getHeaderInt h.reset (some 0) with _ | S <;>
      simp only [RateLimitTracker.update_from_response, hl, hm, hs] at hok hr ⊢ <;>
      try simp at hok
    by_cases hL : (5000 : Int) ≤ L
    · simp [hL]
    · rw [if_neg (by simp [hL])] at hr
      simp only [dictGet_dictInsert_self, Option.some.injEq] at hr
      subst hr
      exact absurd hlim hL
  exact ⟨hauth, updateMany_auth_mono calls _ hauth⟩

/-- Witness for C6: an authenticated-size core update followed by an
unauthenticated-size one leaves the flag set. -/
theorem C6_authenticated_monotone_witness :
    (RateLimitTracker.init.update_from_response
        ⟨some (HeaderVal.parses 5000), some (HeaderVal.parses 4999),
         some (HeaderVal.parses 99)⟩ "core").1.authenticated = true :=
  (C6_authenticated_monotone RateLimitTracker.init
      ⟨some (HeaderVal.parses 5000), some (HeaderVal.parses 4999),
       some (HeaderVal.parses 99)⟩ ⟨5000, 4999, some 99, "core"⟩
      [(⟨some (HeaderVal.parses 60), some (HeaderVal.parses 59),
         some (HeaderVal.parses 0)⟩, "core")]
      (by decide) (by decide) (by decide)).1

/-! ### C4: exponential backoff with jitter -/

/-- C4: with the jitter draw `u ∈ [0,1)` explicit, `get_delay n` is exactly
the capped exponential plus `capped * 0.2 * u`; it is non-decreasing from
attempt `n` to `n + 1` while `n + 1` is still uncapped, and an uncapped
attempt is bounded between `baseDelay * 2^n` and `baseDelay * 2^n * 1.2`. -/
theorem C4_backoff_delay (p : ExponentialBackoffRetry) (n : Nat) (u u' : ℚ)
    (hb : 0 ≤ p.initial_delay) (hu0 : 0 ≤ u) (hu1 : u < 1) (hu'0 : 0 ≤ u') :
    p.get_delay n true u
      = min (p.initial_delay * 2 ^ n) p.max_delay
        + min (p.initial_delay * 2 ^ n) p.max_delay * (0.2 : ℚ) * u ∧
    (p.initial_delay * 2 ^ (n + 1) ≤ p.max_delay →
      p.get_delay n true u ≤ p.get_delay (n + 1) true u') ∧
    (p.initial_delay * 2 ^ n ≤ p.max_delay →
      p.initial_delay * 2 ^ n ≤ p.get_delay n true u ∧
      p.get_delay n true u ≤ p.initial_delay * 2 ^ n * (1 + (0.2 : ℚ))) := by
  have hc : (0 : ℚ) ≤ p.initial_delay * 2 ^ n :=
    mul_nonneg hb (by positivity)
  have hstep : p.initial_delay * 2 ^ (n + 1) = p.initial_delay * 2 ^ n * 2 := by
    ring
  refine ⟨rfl, ?_, ?_⟩
  · intro hcap
    have hn : p.initial_delay * 2 ^ n ≤ p.max_delay := by
      rw [hstep] at hcap
      nlinarith
    unfold ExponentialBackoffRetry.get_delay
    simp only [if_true, min_eq_left hn, min_eq_left hcap]
    rw [hstep]
    nlinarith
  · intro hn
    unfold ExponentialBackoffRetry.get_delay
    simp only [if_true, min_eq_left hn]
    constructor <;> nlinarith

/-- Witness for C4 at `ExponentialBackoffRetry(5, 1.0, 300.0)`, attempt 2,
jitter draw 1/2: the delay is the capped exponential plus its jitter term. -/
theorem C4_backoff_delay_witness :
    ExponentialBackoffRetry.get_delay ⟨5, 1, 300⟩ 2 true (1 / 2)
      = min ((1 : ℚ) * 2 ^ 2) 300 + min ((1 : ℚ) * 2 ^ 2) 300 * (0.2 : ℚ) * (1 / 2) :=
  (C4_backoff_delay ⟨5, 1, 300⟩ 2 (1 / 2) (1 / 3) (by norm_num) (by norm_num)
      (by norm_num) (by norm_num)).1

/-! ### C5: response cache -/

/-- C5 counterexample: the claim reads a hit whenever `now - t ≤ ttl`, but at
exactly `now - t = ttl` (set at 0, read at 300, ttl 300) the code misses:
`time.time() - timestamp < _cache_ttl` is strict. -/
theorem C5_counterexample :
    (300 : ℚ) - 0 ≤ cache_ttl ∧
    (get_cached (set_cached ([] : List (String × Nat × ℚ)) 0 "k" 42) 300 "k").1
      ≠ some 42 := by
  constructor
  · norm_num [cache_ttl]
  · unfold get_cached set_cached
    rw [dictGet_dictInsert_self]
    dsimp only
    rw [if_neg (by norm_num [cache_ttl])]
    simp

/-- C5 amended: after `set_cached(k, v)` at `t`, a read at `now` hits with `v`
exactly when `now - t < ttl`; when `now - t ≥ ttl` it misses and deletes the
entry (no background sweep — `get_cached` alone mutates); a key never written
is always a miss and leaves the cache untouched. -/
theorem C5_cache_ttl {α : Type} (c : List (String × α × ℚ)) (t now : ℚ)
    (k : String) (v : α) :
    (now - t < cache_ttl →
      (get_cached (set_cached c t k v) now k).1 = some v ∧
      (get_cached (set_cached c t k v) now k).2 = set_cached c t k v) ∧
    (cache_ttl ≤ now - t →
      (get_cached (set_cached c t k v) now k).1 = none ∧
      dictGet (get_cached (set_cached c t k v) now k).2 k = none) ∧
    (dictGet c k = none → get_cached c now k = (none, c)) := by
  refine ⟨?_, ?_, ?_⟩
  · intro hlt
    unfold get_cached set_cached
    rw [dictGet_dictInsert_self]
    dsimp only
    rw [if_pos hlt]
    exact ⟨rfl, rfl⟩
  · intro hge
    unfold get_cached set_cached
    rw [dictGet_dictInsert_self]
    dsimp only
    rw [if_neg (by linarith)]
    exact ⟨rfl, dictGet_dictErase_self _ _⟩
  · intro hmiss
    unfold get_cached
    rw [hmiss]

/-- Witness for C5 amended: a read 299 seconds after the write still hits. -/
theorem C5_cache_ttl_witness :
    (get_cached (set_cached ([] : List (String × Nat × ℚ)) 0 "k" 42) 299 "k").1
      = some 42 :=
  ((C5_cache_ttl ([] : List (String × Nat × ℚ)) 0 299 "k" 42).1
    (by norm_num [cache_ttl])).1

/-! ### Queue-loop lemmas -/

/-- When every attempt raises `e`, the queued loop runs all `k` remaining
attempts, resolves the future once with `e`, and sleeps exactly the
`get_delay` backoff of every non-final attempt. -/
lemma queueLoop_fail_spec {α : Type} (st : RateLimitTracker) (ep : String)
    (retry : ExponentialBackoffRetry) (maxRetries : Nat)
    (outcomes : Nat → Except String α) (draws : Nat → ℚ) (e : String)
    (c : QuotaRecord) (hcore : dictGet st.limits "core" = some c)
    (he : ∀ n, outcomes n = Except.error e) :
    ∀ k (s : QState α), k ≤ maxRetries →
      ∃ s', queueLoop st ep retry maxRetries outcomes draws k s = some s' ∧
        s'.invocations = s.invocations + k ∧
        s'.lastError = (if k = 0 then s.lastError else some e) ∧
        s'.resolutions = s.resolutions ++ (if 1 ≤ k then [FutureRes.error e] else []) ∧
        s'.backoffDelays = s.backoffDelays ++
          (List.range' (maxRetries - k) (k - 1)).map
            (fun j => retry.get_delay j true (draws j)) := by
  intro k
  induction k with
  | zero =>
    intro s _
    exact ⟨s, rfl, by omega, by simp, by simp, by simp⟩
  | succ k ih =>
    intro s hk
    obtain ⟨w, hw⟩ := get_wait_time_some st s.t ep c hcore
    simp only [queueLoop, hw, he]
    by_cases hk1 : 1 ≤ k
    · rw [if_pos (by omega : maxRetries - (k + 1) < maxRetries - 1)]
      obtain ⟨s', hs', hinv, herr, hres, hdel⟩ := ih _ (by omega)
      have hlist : List.map (fun j => retry.get_delay j true (draws j))
            (List.range' (maxRetries - (k + 1)) ((k + 1) - 1))
          = retry.get_delay (maxRetries - (k + 1)) true (draws (maxRetries - (k + 1))) ::
            List.map (fun j => retry.get_delay j true (draws j))
              (List.range' (maxRetries - k) (k - 1)) := by
        have h1 : (k + 1) - 1 = (k - 1) + 1 := by omega
        have h2 : maxRetries - (k + 1) + 1 = maxRetries - k := by omega
        rw [h1, List.range'_succ, h2]
        simp
      refine ⟨s', hs', ?_, ?_, ?_, ?_⟩
      · rw [hinv]
        show s.invocations + 1 + k = s.invocations + (k + 1)
        omega
      · rw [herr, if_neg (by omega : ¬ k = 0), if_neg (by omega : ¬ k + 1 = 0)]
      · rw [hres, if_pos hk1, if_pos (by omega : 1 ≤ k + 1)]
      · rw [hdel, hlist]
        show (s.backoffDelays ++ [_]) ++ _ = s.backoffDelays ++ (_ :: _)
        rw [List.append_assoc]
        rfl
    · have hk0 : k = 0 := by omega
      subst hk0
      rw [if_neg (by omega : ¬ maxRetries - (0 + 1) < maxRetries - 1)]
      simp only [queueLoop]
      refine ⟨_, rfl, ?_, ?_, ?_, ?_⟩
      · show s.invocations + 1 = s.invocations + (0 + 1)
        omega
      · rw [if_neg (by omega : ¬ 0 + 1 = 0)]
      · rw [if_pos (by omega : 1 ≤ 0 + 1)]
      · show s.backoffDelays = s.backoffDelays ++ _
        simp

/-- With at least one attempt left and an empty resolution log, the queued
loop resolves the future exactly once: with a value some attempt produced, or
with the error of the final attempt. -/
lemma queueLoop_resolves {α : Type} (st : RateLimitTracker) (ep : String)
    (retry : ExponentialBackoffRetry) (maxRetries : Nat)
    (outcomes : Nat → Except String α) (draws : Nat → ℚ)
    (c : QuotaRecord) (hcore : dictGet st.limits "core" = some c) :
    ∀ k (s : QState α), 1 ≤ k → k ≤ maxRetries → s.resolutions = [] →
      ∃ s', queueLoop st ep retry maxRetries outcomes draws k s = some s' ∧
        ((∃ v, (∃ j, maxRetries - k ≤ j ∧ j < maxRetries ∧ outcomes j = Except.ok v) ∧
            s'.resolutions = [FutureRes.value v]) ∨
         (∃ e', outcomes (maxRetries - 1) = Except.error e' ∧
            s'.resolutions = [FutureRes.error e'] ∧ s'.lastError = some e')) := by
  intro k
  induction k with
  | zero => omega
  | succ k ih =>
    intro s _ hk hres
    obtain ⟨w, hw⟩ := get_wait_time_some st s.t ep c hcore
    simp only [queueLoop, hw]
    cases hout : outcomes (maxRetries - (k + 1)) with
    | ok v =>
      refine ⟨_, rfl, Or.inl ⟨v, ⟨maxRetries - (k + 1), le_refl _, by omega, hout⟩, ?_⟩⟩
      show s.resolutions ++ [FutureRes.value v] = [FutureRes.value v]
      rw [hres]
      rfl
    | error e =>
      dsimp only
      by_cases hk1 : 1 ≤ k
      · rw [if_pos (by omega : maxRetries - (k + 1) < maxRetries - 1)]
        obtain ⟨s', hs', hcases⟩ :=
          ih ⟨(if 0 < w then s.t + w else s.t) +
                retry.get_delay (maxRetries - (k + 1)) true (draws (maxRetries - (k + 1))),
              s.resolutions, s.invocations + 1,
              s.backoffDelays ++
                [retry.get_delay (maxRetries - (k + 1)) true (draws (maxRetries - (k + 1)))],
              some e⟩ hk1 (by omega) hres
        refine ⟨s', hs', ?_⟩
        rcases hcases with ⟨v, ⟨j, hj1, hj2, hj3⟩, hres'⟩ | hcases
        · exact Or.inl ⟨v, ⟨j, by omega, hj2, hj3⟩, hres'⟩
        · exact Or.inr hcases
      · have hk0 : k = 0 := by omega
        subst hk0
        rw [if_neg (by omega : ¬ maxRetries - (0 + 1) < maxRetries - 1)]
        simp only [queueLoop]
        refine ⟨_, rfl, Or.inr ⟨e, ?_, ?_, rfl⟩⟩
        · rw [show maxRetries - 1 = maxRetries - (0 + 1) from rfl]
          exact hout
        · show s.resolutions ++ [FutureRes.error e] = [FutureRes.error e]
          rw [hres]
          rfl

/-! ### Sync-wrapper lemmas -/

/-- When every attempt raises a rate-limit-classified `e`, the synchronous
wrapper's loop spends all `k` remaining attempts, finally re-raises `e`, and
sleeps exactly the `get_delay` backoff of every non-final attempt. -/
lemma syncLoop_fail_spec {α : Type} (st : RateLimitTracker) (ep : String)
    (retry : ExponentialBackoffRetry) (maxRetries : Nat)
    (outcomes : Nat → Except String α) (draws : Nat → ℚ) (e : String)
    (c : QuotaRecord) (hcore : dictGet st.limits "core" = some c)
    (hrl : is_rate_limit_error e = true)
    (he : ∀ n, outcomes n = Except.error e) :
    ∀ k (s : SState α), k ≤ maxRetries → (k = 0 → s.lastError = some e) →
      ∃ s', syncLoop st ep retry maxRetries outcomes draws k s = some s' ∧
        s'.invocations = s.invocations + k ∧
        s'.outcome = some (Except.error e) ∧
        s'.backoffDelays = s.backoffDelays ++
          (List.range' (maxRetries - k) (k - 1)).map
            (fun j => retry.get_delay j true (draws j)) := by
  intro k
  induction k with
  | zero =>
    intro s _ hle
    simp only [syncLoop, hle rfl]
    refine ⟨_, rfl, ?_, rfl, ?_⟩
    · show s.invocations = s.invocations + 0
      omega
    · show s.backoffDelays = s.backoffDelays ++ _
      simp
  | succ k ih =>
    intro s hk _
    obtain ⟨w, hw⟩ := get_wait_time_some st s.t ep c hcore
    simp only [syncLoop, hw, he]
    by_cases hk1 : 1 ≤ k
    · rw [if_pos ⟨hrl, by omega⟩]
      obtain ⟨s', hs', hinv, hout, hdel⟩ :=
        ih ⟨(if 0 < w then s.t + w else s.t) +
              retry.get_delay (maxRetries - (k + 1)) true (draws (maxRetries - (k + 1))),
            s.outcome, s.invocations + 1,
            s.backoffDelays ++
              [retry.get_delay (maxRetries - (k + 1)) true (draws (maxRetries - (k + 1)))],
            some e⟩ (by omega) (fun h => absurd h (by omega))
      have hlist : List.map (fun j => retry.get_delay j true (draws j))
            (List.range' (maxRetries - (k + 1)) ((k + 1) - 1))
          = retry.get_delay (maxRetries - (k + 1)) true (draws (maxRetries - (k + 1))) ::
            List.map (fun j => retry.get_delay j true (draws j))
              (List.range' (maxRetries - k) (k - 1)) := by
        have h1 : (k + 1) - 1 = (k - 1) + 1 := by omega
        have h2 : maxRetries - (k + 1) + 1 = maxRetries - k := by omega
        rw [h1, List.range'_succ, h2]
        simp
      refine ⟨s', hs', ?_, hout, ?_⟩
      · rw [hinv]
        show s.invocations + 1 + k = s.invocations + (k + 1)
        omega
      · rw [hdel, hlist]
        show (s.backoffDelays ++ [_]) ++ _ = s.backoffDelays ++ (_ :: _)
        rw [List.append_assoc]
        rfl
    · have hk0 : k = 0 := by omega
      subst hk0
      rw [if_neg (by rintro ⟨-, h2⟩; omega)]
      rw [if_neg (by simp [hrl])]
      obtain ⟨s', hs', hinv, hout, hdel⟩ :=
        ih ⟨if 0 < w then s.t + w else s.t, s.outcome, s.invocations + 1,
            s.backoffDelays, some e⟩ (by omega) (fun _ => rfl)
      refine ⟨s', hs', ?_, hout, ?_⟩
      · rw [hinv]
      · rw [hdel]
        show s.backoffDelays ++ _ = s.backoffDelays ++ _
        simp

/-- A first attempt failing with a non-rate-limit error is re-raised at once:
one invocation, no backoff sleep. -/
lemma sync_first_permanent {α : Type} (st : RateLimitTracker) (t0 : ℚ)
    (ep : String) (maxRetries : Nat) (outcomes : Nat → Except String α)
    (draws : Nat → ℚ) (e : String) (c : QuotaRecord)
    (hcore : dictGet st.limits "core" = some c) (hmax : 1 ≤ maxRetries)
    (h0 : outcomes 0 = Except.error e) (hperm : is_rate_limit_error e = false) :
    ∃ s, with_rate_limit_handling st t0 ep maxRetries outcomes draws = some s ∧
      s.outcome = some (Except.error e) ∧ s.invocations = 1 ∧
      s.backoffDelays = [] := by
  obtain ⟨k, rfl⟩ : ∃ k, maxRetries = k + 1 := ⟨maxRetries - 1, by omega⟩
  unfold with_rate_limit_handling
  obtain ⟨w, hw⟩ := get_wait_time_some st t0 ep c hcore
  simp only [syncLoop, Nat.sub_self]
  rw [hw, h0]
  dsimp only
  rw [if_neg (by rintro ⟨h1, -⟩; rw [hperm] at h1; cases h1)]
  rw [if_pos hperm]
  exact ⟨_, rfl, rfl, rfl, rfl⟩

/-! ### C1: the queued path never updates the tracker -/

/-- C1 counterexample: processing a queued operation leaves the tracker
exactly as it was — even though an update from response metadata carrying
`limit=5000, remaining=4999, reset=1700000000` would change it — so no
`update_from_response` call happens in `process_queue`. -/
theorem C1_counterexample :
    (process_queue_one (α := Nat) RateLimitTracker.init 0 "core" 1
        (fun _ => Except.ok 200) (fun _ => 0)).map Prod.fst
      = some RateLimitTracker.init ∧
    (RateLimitTracker.init.update_from_response
        ⟨some (HeaderVal.parses 5000), some (HeaderVal.parses 4999),
         some (HeaderVal.parses 1700000000)⟩ "core").1 ≠ RateLimitTracker.init := by
  constructor
  · rfl
  · decide

/-- C1 amended: `process_queue` returns the rate limiter untouched for every
dequeued operation, every retry budget and every outcome sequence — the
queued path never invokes `update_from_response`; tracker updates are the
callers' business. -/
theorem C1_queue_never_updates_tracker {α : Type} (st : RateLimitTracker)
    (t0 : ℚ) (ep : String) (maxRetries : Nat)
    (outcomes : Nat → Except String α) (draws : Nat → ℚ)
    (p : RateLimitTracker × QState α)
    (hp : process_queue_one st t0 ep maxRetries outcomes draws = some p) :
    p.1 = st := by
  simp only [process_queue_one] at hp
  cases hq : queueLoop st ep ⟨maxRetries, 1, 300⟩ maxRetries outcomes draws
      maxRetries ⟨t0, [], 0, [], none⟩ with
  | none => rw [hq] at hp; cases hp
  | some s =>
    rw [hq] at hp
    obtain ⟨t, res, inv, bd, le⟩ := s
    cases res <;> cases le <;> (dsimp only at hp; cases hp; rfl)

/-- Witness for C1 amended at a one-shot successful operation. -/
theorem C1_queue_never_updates_tracker_witness :
    ((RateLimitTracker.init,
        (⟨0, [FutureRes.value 200], 1, [], none⟩ : QState Nat)) :
      RateLimitTracker × QState Nat).1 = RateLimitTracker.init :=
  C1_queue_never_updates_tracker RateLimitTracker.init 0 "core" 1
    (fun _ => Except.ok 200) (fun _ => 0) _ rfl

/-! ### C7: exactly-once future resolution -/

/-- C7 counterexample: with a configured retry count of 0 the attempt loop
never runs, `last_error` stays `None`, and the dequeued operation's future is
left unresolved (no `set_result`/`set_exception` call) even though the action
would have succeeded. -/
theorem C7_counterexample :
    process_queue_one (α := Nat) RateLimitTracker.init 0 "core" 0
        (fun _ => Except.ok 42) (fun _ => 0)
      = some (RateLimitTracker.init, ⟨0, [], 0, [], none⟩) := rfl

/-- C7 amended: for every retry budget of at least 1 (the loop body must run
at least once), a dequeued operation's future is resolved exactly once —
with a value some attempt produced on success, or with the final attempt's
error on terminal failure. -/
theorem C7_future_resolved_once {α : Type} (st : RateLimitTracker) (t0 : ℚ)
    (ep : String) (maxRetries : Nat) (outcomes : Nat → Except String α)
    (draws : Nat → ℚ) (c : QuotaRecord)
    (hcore : dictGet st.limits "core" = some c) (hmax : 1 ≤ maxRetries) :
    ∃ s, process_queue_one st t0 ep maxRetries outcomes draws = some (st, s) ∧
      s.resolutions.length = 1 ∧
      (∀ v, s.resolutions = [FutureRes.value v] →
        ∃ j, j < maxRetries ∧ outcomes j = Except.ok v) ∧
      (∀ e, s.resolutions = [FutureRes.error e] →
        outcomes (maxRetries - 1) = Except.error e) := by
  obtain ⟨s', hs', hcases⟩ := queueLoop_resolves st ep ⟨maxRetries, 1, 300⟩
    maxRetries outcomes draws c hcore maxRetries ⟨t0, [], 0, [], none⟩ hmax
    (le_refl _) rfl
  simp only [process_queue_one]
  rw [hs']
  dsimp only
  rcases hcases with ⟨v, ⟨j, hj1, hj2, hj3⟩, hres⟩ | ⟨e', hout, hres, hle⟩
  · rw [hres]
    refine ⟨s', rfl, by rw [hres]; rfl, ?_, ?_⟩
    · intro v0 h0
      rw [hres] at h0
      simp only [List.cons.injEq, and_true, FutureRes.value.injEq] at h0
      subst h0
      exact ⟨j, hj2, hj3⟩
    · intro e0 h0
      rw [hres] at h0
      simp at h0
  · rw [hres, hle]
    refine ⟨s', rfl, by rw [hres]; rfl, ?_, ?_⟩
    · intro v0 h0
      rw [hres] at h0
      simp at h0
    · intro e0 h0
      rw [hres] at h0
      simp only [List.cons.injEq, and_true, FutureRes.error.injEq] at h0
      subst h0
      exact hout

/-- Witness for C7 amended: two attempts, a rate-limit failure then a
success, resolve the future exactly once. -/
theorem C7_future_resolved_once_witness :
    ∃ s, process_queue_one RateLimitTracker.init 0 "core" 2
        (fun n => if n = 0 then Except.error "rate limit exceeded"
                  else Except.ok (7 : Nat))
        (fun _ => 0) = some (RateLimitTracker.init, s) ∧
      s.resolutions.length = 1 ∧
      (∀ v, s.resolutions = [FutureRes.value v] →
        ∃ j, j < 2 ∧
          (fun n => if n = 0 then Except.error "rate limit exceeded"
                    else Except.ok (7 : Nat)) j = Except.ok v) ∧
      (∀ e, s.resolutions = [FutureRes.error e] →
        (fun n => if n = 0 then Except.error "rate limit exceeded"
                  else Except.ok (7 : Nat)) (2 - 1) = Except.error e) :=
  C7_future_resolved_once RateLimitTracker.init 0 "core" 2
    (fun n => if n = 0 then Except.error "rate limit exceeded"
              else Except.ok (7 : Nat))
    (fun _ => 0) ⟨60, 60, none, "core"⟩ (by decide) (by omega)

/-! ### C2: retry classification of the two call shapes -/

/-- C2 counterexample: on the permanent error `"boom"` (matching none of the
rate-limit heuristics) with 3 attempts configured, the queued path invokes
the action 3 times (it retries every error), while the synchronous wrapper
invokes it once and re-raises — the two shapes do not share classification. -/
theorem C2_counterexample :
    (process_queue_one (α := Nat) RateLimitTracker.init 0 "core" 3
        (fun _ => Except.error "boom") (fun _ => 0)).map
        (fun p => p.2.invocations) = some 3 ∧
    (with_rate_limit_handling (α := Nat) RateLimitTracker.init 0 "core" 3
        (fun _ => Except.error "boom") (fun _ => 0)).map
        (fun s => s.invocations) = some 1 ∧
    is_rate_limit_error "boom" = false :=
  ⟨rfl, rfl, rfl⟩

/-- C2 amended: both shapes compute backoff with the same
`ExponentialBackoffRetry.get_delay` (defaults 1.0/300.0), but their failure
classification differs: on persistent errors the queued path always runs all
attempts, while the synchronous wrapper does so only for errors matching the
rate-limit heuristics and re-raises any other error after one invocation. -/
theorem C2_paths_diverge {α : Type} (st : RateLimitTracker) (t0 : ℚ)
    (ep : String) (maxRetries : Nat) (outcomes : Nat → Except String α)
    (draws : Nat → ℚ) (e : String) (c : QuotaRecord)
    (hcore : dictGet st.limits "core" = some c) (hmax : 1 ≤ maxRetries)
    (he : ∀ n, outcomes n = Except.error e) :
    (∃ s, process_queue_one st t0 ep maxRetries outcomes draws = some (st, s) ∧
       s.invocations = maxRetries ∧
       s.backoffDelays = (List.range (maxRetries - 1)).map
         (fun j => ExponentialBackoffRetry.get_delay ⟨maxRetries, 1, 300⟩ j true (draws j))) ∧
    (is_rate_limit_error e = true →
      ∃ s, with_rate_limit_handling st t0 ep maxRetries outcomes draws = some s ∧
        s.invocations = maxRetries ∧ s.outcome = some (Except.error e) ∧
        s.backoffDelays = (List.range (maxRetries - 1)).map
          (fun j => ExponentialBackoffRetry.get_delay ⟨maxRetries, 1, 300⟩ j true (draws j))) ∧
    (is_rate_limit_error e = false →
      ∃ s, with_rate_limit_handling st t0 ep maxRetries outcomes draws = some s ∧
        s.invocations = 1 ∧ s.outcome = some (Except.error e) ∧
        s.backoffDelays = []) := by
  refine ⟨?_, ?_, ?_⟩
  · obtain ⟨s', hs', hinv, herr, hres, hdel⟩ := queueLoop_fail_spec st ep
      ⟨maxRetries, 1, 300⟩ maxRetries outcomes draws e c hcore he maxRetries
      ⟨t0, [], 0, [], none⟩ (le_refl _)
    have hres' : s'.resolutions = [FutureRes.error e] := by
      rw [hres, if_pos hmax]
      rfl
    simp only [process_queue_one]
    rw [hs']
    dsimp only
    rw [hres']
    refine ⟨s', rfl, ?_, ?_⟩
    · rw [hinv]
      show 0 + maxRetries = maxRetries
      omega
    · rw [hdel]
      show [] ++ _ = _
      rw [List.nil_append, List.range_eq_range', Nat.sub_self]
  · intro hrl
    obtain ⟨s', hs', hinv, hout, hdel⟩ := syncLoop_fail_spec st ep
      ⟨maxRetries, 1, 300⟩ maxRetries outcomes draws e c hcore hrl he maxRetries
      ⟨t0, none, 0, [], none⟩ (le_refl _) (fun h => absurd h (by omega))
    refine ⟨s', ?_, ?_, hout, ?_⟩
    · simpa [with_rate_limit_handling] using hs'
    · rw [hinv]
      show 0 + maxRetries = maxRetries
      omega
    · rw [hdel]
      show [] ++ _ = _
      rw [List.nil_append, List.range_eq_range', Nat.sub_self]
  · intro hperm
    obtain ⟨s', hs', hout, hinv, hdel⟩ := sync_first_permanent st t0 ep maxRetries
      outcomes draws e c hcore hmax (he 0) hperm
    exact ⟨s', hs', hinv, hout, hdel⟩

/-- Witness for C2 amended on the permanent error `"boom"` with 2 attempts. -/
theorem C2_paths_diverge_witness :
    (∃ s, process_queue_one (α := Nat) RateLimitTracker.init 0 "core" 2
        (fun _ => Except.error "boom") (fun _ => 0)
        = some (RateLimitTracker.init, s) ∧
       s.invocations = 2 ∧
       s.backoffDelays = (List.range (2 - 1)).map
         (fun j => ExponentialBackoffRetry.get_delay ⟨2, 1, 300⟩ j true
           ((fun _ => (0 : ℚ)) j))) ∧
    (is_rate_limit_error "boom" = true →
      ∃ s, with_rate_limit_handling (α := Nat) RateLimitTracker.init 0 "core" 2
        (fun _ => Except.error "boom") (fun _ => 0) = some s ∧
        s.invocations = 2 ∧ s.outcome = some (Except.error "boom") ∧
        s.backoffDelays = (List.range (2 - 1)).map
          (fun j => ExponentialBackoffRetry.get_delay ⟨2, 1, 300⟩ j true
            ((fun _ => (0 : ℚ)) j))) ∧
    (is_rate_limit_error "boom" = false →
      ∃ s, with_rate_limit_handling (α := Nat) RateLimitTracker.init 0 "core" 2
        (fun _ => Except.error "boom") (fun _ => 0) = some s ∧
        s.invocations = 1 ∧ s.outcome = some (Except.error "boom") ∧
        s.backoffDelays = []) :=
  C2_paths_diverge RateLimitTracker.init 0 "core" 2
    (fun _ => Except.error "boom") (fun _ => 0) "boom" ⟨60, 60, none, "core"⟩
    (by decide) (by omega) (fun _ => rfl)

/-! ### C8: synchronous wrapper classification -/

/-- C8: in the synchronous wrapper, a first attempt failing with an error
matching none of the heuristics (`'rate limit'`/`'403'`/`'abuse'`) is
re-raised immediately — one invocation, no backoff sleep — while an error
matching the heuristics on every attempt is retried up to the configured
maximum number of attempts before being re-raised. -/
theorem C8_permanent_not_retried {α : Type} (st : RateLimitTracker) (t0 : ℚ)
    (ep : String) (maxRetries : Nat) (outcomes : Nat → Except String α)
    (draws : Nat → ℚ) (e : String) (c : QuotaRecord)
    (hcore : dictGet st.limits "core" = some c) (hmax : 1 ≤ maxRetries) :
    (outcomes 0 = Except.error e → is_rate_limit_error e = false →
      ∃ s, with_rate_limit_handling st t0 ep maxRetries outcomes draws = some s ∧
        s.outcome = some (Except.error e) ∧ s.invocations = 1 ∧
        s.backoffDelays = []) ∧
    ((∀ n, outcomes n = Except.error e) → is_rate_limit_error e = true →
      ∃ s, with_rate_limit_handling st t0 ep maxRetries outcomes draws = some s ∧
        s.invocations = maxRetries ∧ s.outcome = some (Except.error e)) := by
  constructor
  · intro h0 hperm
    exact sync_first_permanent st t0 ep maxRetries outcomes draws e c hcore hmax
      h0 hperm
  · intro he hrl
    obtain ⟨s', hs', hinv, hout, hdel⟩ := syncLoop_fail_spec st ep
      ⟨maxRetries, 1, 300⟩ maxRetries outcomes draws e c hcore hrl he maxRetries
      ⟨t0, none, 0, [], none⟩ (le_refl _) (fun h => absurd h (by omega))
    refine ⟨s', ?_, ?_, hout⟩
    · simpa [with_rate_limit_handling] using hs'
    · rw [hinv]
      show 0 + maxRetries = maxRetries
      omega

/-- Witness for C8: with 3 attempts, the permanent error `"connection reset"`
is raised after exactly one invocation with no backoff sleeps. -/
theorem C8_permanent_not_retried_witness :
    ∃ s, with_rate_limit_handling (α := Nat) RateLimitTracker.init 0 "core" 3
        (fun _ => Except.error "connection reset") (fun _ => 0) = some s ∧
      s.outcome = some (Except.error "connection reset") ∧ s.invocations = 1 ∧
      s.backoffDelays = [] :=
  (C8_permanent_not_retried RateLimitTracker.init 0 "core" 3
      (fun _ => Except.error "connection reset") (fun _ => 0)
      "connection reset" ⟨60, 60, none, "core"⟩ (by decide) (by omega)).1
    rfl (by decide)
